import Mathlib

/-!
Verification of the CAN-bus data-logger firmware (two variants:
`CAN_Data_Logger_Encoded.ino` and `Lastry.ino`) against its natural-language
specification.  The relevant parts of the firmware are shallowly embedded as
executable Lean definitions: machine integers become `Nat` with explicit
`% 2^32` where 32-bit wraparound matters, Arduino `String` building becomes
Lean `String` concatenation, and the SD card is an explicit functional state.
-/

namespace CanLogger

/-- 2^32, the modulus of unsigned 32-bit arithmetic (`uint32_t`). -/
def UINT32_MOD : Nat := 4294967296

/-- The fixed 16-byte static key `ENCRYPTION_KEY` from
`CAN_Data_Logger_Encoded.ino`. -/
def ENCRYPTION_KEY : List Nat :=
  [0x3A, 0x7C, 0xB5, 0x19,
   0xE4, 0x58, 0xC1, 0x0D,
   0x92, 0xAF, 0x63, 0x27,
   0xFE, 0x34, 0x88, 0x4B]

/-- One key-mixing step of `resetCipherState`:
`state = (state * 1664525UL) + 1013904223UL + key[i]` under `uint32_t`
wraparound. -/
def lcgKeyStep (s k : Nat) : Nat :=
  (s * 1664525 + 1013904223 + k) % UINT32_MOD

/-- `resetCipherState()` generalized over the key array: seed the state with
`nonce ^ 0xA5A5A5A5` and fold the 16 key-mixing steps over the key bytes in
order. -/
def resetCipherStateWith (key : List Nat) (nonce : Nat) : Nat :=
  key.foldl lcgKeyStep (nonce ^^^ 0xA5A5A5A5)

/-- `resetCipherState()` from `CAN_Data_Logger_Encoded.ino` with the firmware's
fixed `ENCRYPTION_KEY`. -/
def resetCipherState (nonce : Nat) : Nat :=
  resetCipherStateWith ENCRYPTION_KEY nonce

/-- The state advance inside `encryptByte`:
`currentCipherState = (currentCipherState * 1664525UL) + 1013904223UL`
under `uint32_t` wraparound. -/
def cipherAdvance (s : Nat) : Nat :=
  (s * 1664525 + 1013904223) % UINT32_MOD

/-- The keystream byte `encryptByte` derives from the (already advanced)
state: `((state >> 24) & 0xFF) ^ key[state & 0x0F]`. -/
def streamByteWith (key : List Nat) (s : Nat) : Nat :=
  ((s >>> 24) &&& 0xFF) ^^^ key.getD (s &&& 0x0F) 0

/-- `encryptByte(inputByte)`: advance the state, then XOR the input with the
keystream byte.  Returns the ciphertext byte and the new state. -/
def encryptByteWith (key : List Nat) (s b : Nat) : Nat × Nat :=
  let s' := cipherAdvance s
  (b ^^^ streamByteWith key s', s')

/-- `encryptByte` with the firmware's fixed key. -/
def encryptByte (s b : Nat) : Nat × Nat :=
  encryptByteWith ENCRYPTION_KEY s b

/-- Encrypting a byte sequence: the per-byte loop of
`writeEncryptedLine`/`writeEncryptedBuffer`, threading the cipher state. -/
def encryptBytes (key : List Nat) (s : Nat) : List Nat → List Nat × Nat
  | [] => ([], s)
  | b :: bs =>
    let p := encryptByteWith key s b
    let q := encryptBytes key p.2 bs
    (p.1 :: q.1, q.2)

/-- The `n`-th keystream byte produced by the firmware for a given nonce:
initialize via `resetCipherState`, then advance the state `n+1` times (one
advance per produced byte) and read off the stream byte. -/
def keystreamAt (nonce n : Nat) : Nat :=
  streamByteWith ENCRYPTION_KEY (cipherAdvance^[n + 1] (resetCipherState nonce))

/-- Modelled from the spec's words (for comparison with the code): the spec's
initialization `state = nonce XOR 0xA5A5A5A5` followed by
`state = state * 1664525 + 1013904223 + key[i]` for the 16 key bytes. -/
def specInitState (nonce : Nat) : Nat :=
  ENCRYPTION_KEY.foldl (fun s k => (s * 1664525 + 1013904223 + k) % UINT32_MOD)
    (nonce ^^^ 0xA5A5A5A5)

/-- Modelled from the spec's words: each keystream byte is
`(state >> 24) XOR key[state & 0x0F]` (no explicit `& 0xFF`). -/
def specStreamByte (s : Nat) : Nat :=
  (s >>> 24) ^^^ ENCRYPTION_KEY.getD (s &&& 0x0F) 0

/-- Modelled from the spec's words: the `n`-th keystream byte, advancing the
state once before producing each byte. -/
def specKeystreamAt (nonce n : Nat) : Nat :=
  specStreamByte (cipherAdvance^[n + 1] (specInitState nonce))

lemma cipherAdvance_lt (s : Nat) : cipherAdvance s < UINT32_MOD := by
  unfold cipherAdvance UINT32_MOD
  exact Nat.mod_lt _ (by norm_num)

lemma shiftRight24_and_eq (s : Nat) (hs : s < UINT32_MOD) :
    (s >>> 24) &&& 0xFF = s >>> 24 := by
  have h1 : (s >>> 24) &&& 0xFF = (s >>> 24) % 2 ^ 8 := by
    have := Nat.and_pow_two_sub_one_eq_mod (s >>> 24) 8
    norm_num at this ⊢
    exact this
  have h2 : s >>> 24 < 2 ^ 8 := by
    rw [Nat.shiftRight_eq_div_pow]
    have : s < 2 ^ 8 * 2 ^ 24 := by
      norm_num
      exact lt_of_lt_of_le hs (by unfold UINT32_MOD; norm_num)
    exact Nat.div_lt_of_lt_mul (by omega)
  rw [h1, Nat.mod_eq_of_lt h2]

lemma streamByteWith_eq_spec (s : Nat) (hs : s < UINT32_MOD) :
    streamByteWith ENCRYPTION_KEY s = specStreamByte s := by
  unfold streamByteWith specStreamByte
  rw [shiftRight24_and_eq s hs]

/-- **C1**: the cipher engine computes exactly the specified algorithm.
Initialization from a 32-bit nonce and the fixed key matches the spec's
formula (`state = nonce XOR 0xA5A5A5A5`, then the 16 key-mixing LCG steps
under 32-bit wraparound), and for every nonce and every position `n` the
`n`-th keystream byte produced by the firmware's `resetCipherState` /
`encryptByte` pair equals the spec's
`(state >> 24) XOR key[state & 0x0F]` after `n+1` LCG advances — a
deterministic function of `(nonce, key, n)`. -/
theorem cipher_engine_matches_spec (nonce n : Nat) :
    resetCipherState nonce = specInitState nonce ∧
    keystreamAt nonce n = specKeystreamAt nonce n := by
  constructor
  · rfl
  · unfold keystreamAt specKeystreamAt
    have hinit : resetCipherState nonce = specInitState nonce := rfl
    rw [hinit]
    apply streamByteWith_eq_spec
    rw [Function.iterate_succ_apply']
    exact cipherAdvance_lt _

lemma encryptBytes_involutive (key : List Nat) (s : Nat) (P : List Nat) :
    (encryptBytes key s (encryptBytes key s P).1).1 = P := by
  induction P generalizing s with
  | nil => rfl
  | cons b bs ih =>
    simp [encryptBytes, encryptByteWith, Nat.xor_cancel_right, ih]

/-- **C2**: encryption and decryption are the same operation and round-trip.
For every nonce, every key, and every plaintext byte sequence `P`, XORing
each byte with the keystream starting from the initialized cipher state, and
then applying the identical operation again from the same initialized state,
yields `P` unchanged. -/
theorem encrypt_roundtrip (key : List Nat) (nonce : Nat) (P : List Nat) :
    (encryptBytes key (resetCipherStateWith key nonce)
      (encryptBytes key (resetCipherStateWith key nonce) P).1).1 = P :=
  encryptBytes_involutive key (resetCipherStateWith key nonce) P

/-! ## Record encoder (`writeCANMessage` line formatting) -/

/-- One uppercase hexadecimal digit, as produced by Arduino's
`String(n, HEX)` followed by `toUpperCase()`. -/
def hexDigitUpper (n : Nat) : Char :=
  if n < 10 then Char.ofNat (48 + n) else Char.ofNat (55 + n)

/-- Hex digits of `n`, most significant first, no leading zeros (`"0"` for 0).
Fuel-based structural recursion so the definition evaluates in the kernel;
`n + 1` units of fuel always suffice since the argument shrinks by `/ 16`. -/
def hexDigitsAux : Nat → Nat → List Char
  | 0, _ => []
  | fuel + 1, n =>
    if n < 16 then [hexDigitUpper n]
    else hexDigitsAux fuel (n / 16) ++ [hexDigitUpper (n % 16)]

/-- `String(n, HEX).toUpperCase()`: uppercase hex, no `0x` prefix, no
leading zeros. -/
def toHexUpper (n : Nat) : String :=
  ⟨hexDigitsAux (n + 1) n⟩

/-- A CAN frame as received from the TWAI driver (`CanFrame` in the source):
identifier, extended/RTR flags, data length code and the 8-byte payload
array (modelled as a byte list read with zero default). -/
structure CanFrame where
  identifier : Nat
  extd : Bool
  rtr : Bool
  data_length_code : Nat
  data : List Nat
deriving DecidableEq, Repr

/-- One data column of the CSV line: two uppercase hex digits for payload
bytes below the (clamped) data length (`"0"`-padded below 0x10), literally
`"00"` beyond it.  The clamp `if (dlc > 8) dlc = 8` is from the source. -/
def dataColumn (dlc : Nat) (data : List Nat) (i : Nat) : String :=
  let d := if dlc > 8 then 8 else dlc
  if i < d then
    (if data.getD i 0 < 0x10 then "0" else "") ++ toHexUpper (data.getD i 0)
  else "00"

/-- The 8 data columns emitted by the `for (int i = 0; i < 8; i++)` loop. -/
def dataColumns (dlc : Nat) (data : List Nat) : List String :=
  (List.range 8).map (dataColumn dlc data)

/-- The data-column portion of the line: each loop iteration appends `","`
then the column. -/
def dataColumnsStr (dlc : Nat) (data : List Nat) : String :=
  (dataColumns dlc data).foldl (fun acc c => acc ++ "," ++ c) ""

/-- The ID/flags/DLC/data portion of the CSV line built by `writeCANMessage`:
from the comma preceding the identifier (after the Microseconds column)
through the comma following the last data column (before LinearAccelX). -/
def idFlagsDlcDataPortion (f : CanFrame) : String :=
  "," ++ toHexUpper f.identifier
      ++ "," ++ (if f.extd then "1" else "0")
      ++ "," ++ (if f.rtr then "1" else "0")
      ++ "," ++ Nat.repr f.data_length_code
      ++ dataColumnsStr f.data_length_code f.data
      ++ ","

/-- **C3**: record encoding is byte-stable.  For a `LogRecord` with
`data_length=3`, data bytes `[0xAB, 0xCD, 0xEF]`, identifier `0x123`,
extended=false, rtr=false, the ID/flags/DLC/data portion of the encoded CSV
line is exactly `",123,0,0,3,AB,CD,EF,00,00,00,00,00,"`: uppercase hex
identifier without `0x` prefix, `"1"`/`"0"` flags, decimal DLC, exactly 8
two-digit uppercase hex data columns, columns beyond `data_length`
literally `"00"`. -/
theorem record_encoding_byte_stable :
    idFlagsDlcDataPortion
      { identifier := 0x123, extd := false, rtr := false,
        data_length_code := 3, data := [0xAB, 0xCD, 0xEF, 0, 0, 0, 0, 0] }
      = ",123,0,0,3,AB,CD,EF,00,00,00,00,00," := by decide

lemma getD_lt_of_forall_lt (data : List Nat) (i : Nat)
    (hb : ∀ b ∈ data, b < 256) : data.getD i 0 < 256 := by
  rw [List.getD_eq_getElem?_getD]
  rcases h : data[i]? with _ | b
  · simp
  · have hmem : b ∈ data := List.getElem?_mem h
    simpa using hb b hmem

lemma hexDigitsAux_small (fuel n : Nat) (hf : 1 ≤ fuel) (hn : n < 16) :
    hexDigitsAux fuel n = [hexDigitUpper n] := by
  cases fuel with
  | zero => omega
  | succ f => simp [hexDigitsAux, hn]

lemma hexDigitsAux_two (fuel n : Nat) (hf : 2 ≤ fuel) (h16 : 16 ≤ n)
    (h256 : n < 256) :
    hexDigitsAux fuel n = [hexDigitUpper (n / 16), hexDigitUpper (n % 16)] := by
  cases fuel with
  | zero => omega
  | succ f =>
    have hn : ¬ n < 16 := by omega
    have hdiv : n / 16 < 16 := by omega
    simp [hexDigitsAux, hn, hexDigitsAux_small f (n / 16) (by omega) hdiv]

lemma toHexUpper_length_two (b : Nat) (hb : b < 256) :
    ((if b < 0x10 then "0" else "") ++ toHexUpper b).length = 2 := by
  by_cases h : b < 16
  · rw [String.length_append]
    simp only [toHexUpper, hexDigitsAux_small (b + 1) b (by omega) h, h,
      if_true, String.length_mk, List.length_singleton]
    rfl
  · rw [String.length_append]
    simp [toHexUpper, hexDigitsAux_two (b + 1) b (by omega) (by omega) hb, h]

/-- `storeLiveFrame`'s first payload loop:
`for (int i = 0; i < frame.data_length_code && i < 8; i++) slot.data[i] = frame.data[i]`. -/
def copyPhase (dlc : Nat) (data old : List Nat) : List Nat :=
  (List.range 8).foldl
    (fun acc i => if i < dlc then acc.set i (data.getD i 0) else acc) old

/-- `storeLiveFrame`'s second payload loop:
`for (int i = frame.data_length_code; i < 8; i++) slot.data[i] = 0`. -/
def zeroPhase (dlc : Nat) (cur : List Nat) : List Nat :=
  ((List.range 8).drop dlc).foldl (fun acc i => acc.set i 0) cur

/-- The 8 payload bytes stored into a live-buffer slot, as computed by the
two loops of `storeLiveFrame` over the slot's previous content. -/
def storeSlotBytes (dlc : Nat) (data old : List Nat) : List Nat :=
  zeroPhase dlc (copyPhase dlc data old)

lemma storeSlotBytes_eq (dlc : Nat) (data : List Nat)
    (x0 x1 x2 x3 x4 x5 x6 x7 : Nat) :
    storeSlotBytes dlc data [x0, x1, x2, x3, x4, x5, x6, x7] =
      (List.range 8).map (fun i => if i < dlc then data.getD i 0 else 0) := by
  by_cases h8 : 8 ≤ dlc
  · have hdrop : (List.range 8).drop dlc = [] := by
      apply List.drop_eq_nil_of_le
      simpa using h8
    simp only [storeSlotBytes, zeroPhase, hdrop, List.foldl_nil, copyPhase]
    have h0 : 0 < dlc := by omega
    have h1 : 1 < dlc := by omega
    have h2 : 2 < dlc := by omega
    have h3 : 3 < dlc := by omega
    have h4 : 4 < dlc := by omega
    have h5 : 5 < dlc := by omega
    have h6 : 6 < dlc := by omega
    have h7 : 7 < dlc := by omega
    simp [List.range_succ, h0, h1, h2, h3, h4, h5, h6, h7]
  · interval_cases dlc <;>
      simp [storeSlotBytes, zeroPhase, copyPhase, List.range_succ]

/-- **C10** (implicit): the record encoder is total over out-of-range data
lengths.  For every frame whose `data_length_code` exceeds 8 (payload bytes
below 256), `writeCANMessage` clamps the effective length to 8 — the data
columns coincide with those of DLC 8 — and still emits exactly 8 data
columns of exactly two characters each; and `storeLiveFrame` writes exactly
8 slot bytes, copying at most the first 8 payload bytes (and in general
zero-filling bytes at positions `≥ data_length_code`), for any previous
slot content. -/
theorem encoder_total_on_oversized_dlc
    (f : CanFrame) (x0 x1 x2 x3 x4 x5 x6 x7 : Nat)
    (hb : ∀ b ∈ f.data, b < 256) (hdlc : 8 < f.data_length_code) :
    dataColumns f.data_length_code f.data = dataColumns 8 f.data ∧
    (dataColumns f.data_length_code f.data).length = 8 ∧
    (∀ c ∈ dataColumns f.data_length_code f.data, c.length = 2) ∧
    storeSlotBytes f.data_length_code f.data [x0, x1, x2, x3, x4, x5, x6, x7] =
      (List.range 8).map (fun i => f.data.getD i 0) ∧
    (storeSlotBytes f.data_length_code f.data
      [x0, x1, x2, x3, x4, x5, x6, x7]).length = 8 := by
  have hcol : ∀ i < 8, dataColumn f.data_length_code f.data i =
      (if f.data.getD i 0 < 0x10 then "0" else "") ++ toHexUpper (f.data.getD i 0) := by
    intro i hi
    have : f.data_length_code > 8 := hdlc
    simp [dataColumn, this, hi]
  refine ⟨?_, ?_, ?_, ?_, ?_⟩
  · unfold dataColumns
    apply List.map_congr_left
    intro i hi
    have hi8 : i < 8 := by simpa using hi
    rw [hcol i hi8]
    simp [dataColumn, hi8]
  · simp [dataColumns]
  · intro c hc
    obtain ⟨i, hi, rfl⟩ := List.mem_map.mp hc
    have hi8 : i < 8 := by simpa using hi
    rw [hcol i hi8]
    exact toHexUpper_length_two _ (getD_lt_of_forall_lt f.data i hb)
  · rw [storeSlotBytes_eq]
    apply List.map_congr_left
    intro i hi
    have hi8 : i < 8 := by simpa using hi
    simp [show i < f.data_length_code by omega]
  · rw [storeSlotBytes_eq]
    simp

/-- Witness for C10 at a concrete oversized frame (DLC 12). -/
theorem encoder_total_on_oversized_dlc_witness :
    dataColumns 12 [1, 2, 3, 4, 5, 6, 7, 8] = dataColumns 8 [1, 2, 3, 4, 5, 6, 7, 8] ∧
    storeSlotBytes 12 [1, 2, 3, 4, 5, 6, 7, 8] [9, 9, 9, 9, 9, 9, 9, 9] =
      (List.range 8).map (fun i => ([1, 2, 3, 4, 5, 6, 7, 8] : List Nat).getD i 0) := by
  have h := encoder_total_on_oversized_dlc
    { identifier := 0x100, extd := false, rtr := false,
      data_length_code := 12, data := [1, 2, 3, 4, 5, 6, 7, 8] }
    9 9 9 9 9 9 9 9 (by decide) (by decide)
  exact ⟨h.1, h.2.2.2.1⟩

/-! ## Live ring buffer (`storeLiveFrame` / `handleLiveData`) -/

/-- One slot of the live ring buffer (`struct LiveFrame` in the source). -/
structure LiveFrame where
  seq : Nat
  unixTime : Nat
  micros : Nat
  timeText : String
  identifier : Nat
  extended : Bool
  rtr : Bool
  dlc : Nat
  data : List Nat
deriving DecidableEq, Repr

/-- The zero-initialized global slot contents (`LiveFrame liveFrameBuffer[200]`
is a zero-initialized global array). -/
def zeroLiveFrame : LiveFrame :=
  { seq := 0, unixTime := 0, micros := 0, timeText := "",
    identifier := 0, extended := false, rtr := false, dlc := 0,
    data := [0, 0, 0, 0, 0, 0, 0, 0] }

/-- The ring-buffer state: the 200-slot array (`LIVE_BUFFER_SIZE 200`) and
the `uint32_t liveFrameCounter` sequence counter. -/
structure LiveState where
  buf : Fin 200 → LiveFrame
  counter : Nat

/-- The arguments of one `storeLiveFrame` call: the received frame plus the
timestamp, microseconds and formatted time string. -/
structure PushInput where
  frame : CanFrame
  timestamp : Nat
  micros : Nat
  timeText : String
deriving DecidableEq, Repr

/-- Default push input (used only as the `getD` fallback). -/
def dInp : PushInput :=
  { frame := { identifier := 0, extd := false, rtr := false,
               data_length_code := 0, data := [] },
    timestamp := 0, micros := 0, timeText := "" }

/-- Startup state: zeroed slots, `liveFrameCounter = 0`. -/
def initLiveState : LiveState :=
  { buf := fun _ => zeroLiveFrame, counter := 0 }

/-- The slot contents written by `storeLiveFrame` for sequence number `seq`
over the previous slot occupant `old` (the payload loops write over the
existing `slot.data`; `toCharArray` into the 24-byte `timeText` buffer keeps
at most 23 characters). -/
def mkLiveFrame (old : LiveFrame) (inp : PushInput) (seq : Nat) : LiveFrame :=
  { seq := seq
    unixTime := inp.timestamp
    micros := inp.micros
    timeText := inp.timeText.take 23
    identifier := inp.frame.identifier
    extended := inp.frame.extd
    rtr := inp.frame.rtr
    dlc := inp.frame.data_length_code
    data := storeSlotBytes inp.frame.data_length_code inp.frame.data old.data }

/-- Slot index `n % 200` as a `Fin 200`. -/
def slotIndex (n : Nat) : Fin 200 :=
  ⟨n % 200, Nat.mod_lt _ (by norm_num)⟩

/-- The index computed by `storeLiveFrame`: `(nextSeq - 1) % LIVE_BUFFER_SIZE`
under `uint32_t` arithmetic (`nextSeq - 1` wraps when `nextSeq = 0`). -/
def liveIdx (nextSeq : Nat) : Fin 200 :=
  slotIndex ((nextSeq + (UINT32_MOD - 1)) % UINT32_MOD)

/-- `storeLiveFrame`: compute `nextSeq = liveFrameCounter + 1` (`uint32_t`),
overwrite slot `(nextSeq - 1) % 200`, then set `liveFrameCounter = nextSeq`. -/
def pushLive (s : LiveState) (inp : PushInput) : LiveState :=
  { buf := Function.update s.buf (liveIdx ((s.counter + 1) % UINT32_MOD))
      (mkLiveFrame (s.buf (liveIdx ((s.counter + 1) % UINT32_MOD))) inp
        ((s.counter + 1) % UINT32_MOD))
    counter := (s.counter + 1) % UINT32_MOD }

/-- The buffer state after pushing the frames of `hist` in order into the
startup state. -/
def stateOf (hist : List PushInput) : LiveState :=
  hist.foldl pushLive initLiveState

/-- The canonical slot contents for the `seq`-th push (independent of the
previous occupant, whose 8 data bytes are all overwritten). -/
def liveEntry (inp : PushInput) (seq : Nat) : LiveFrame :=
  mkLiveFrame zeroLiveFrame inp seq

/-- `earliestSeq` from `handleLiveData`:
`(liveFrameCounter >= LIVE_BUFFER_SIZE) ? (liveFrameCounter - LIVE_BUFFER_SIZE + 1) : 1`. -/
def earliestSeq (s : LiveState) : Nat :=
  if s.counter ≥ 200 then s.counter - 200 + 1 else 1

/-- The `startSeq` computation of `handleLiveData`: `since + 1` when `since`
was supplied (`uint32_t` increment), else the earliest retained sequence;
clamped up to `earliestSeq` and down to `liveFrameCounter`. -/
def startSeqOf (s : LiveState) (since : Nat) : Nat :=
  let earliest := earliestSeq s
  let start0 := if since > 0 then (since + 1) % UINT32_MOD else earliest
  let start1 := if start0 < earliest then earliest else start0
  if start1 > s.counter then s.counter else start1

/-- The frame list assembled by `handleLiveData` for a query `(since, limit)`:
empty when no frame was ever pushed; otherwise scan sequences from the
clamped start through `liveFrameCounter`, skip slots whose stored sequence
differs (overwritten entries), and stop after `limit` entries. -/
def queryLive (s : LiveState) (since limit : Nat) : List LiveFrame :=
  if s.counter = 0 then []
  else
    ((List.range' (startSeqOf s since) (s.counter + 1 - startSeqOf s since)).filterMap
      (fun seq =>
        let f := s.buf (slotIndex (seq - 1))
        if f.seq = seq then some f else none)).take limit

lemma liveIdx_of_no_wrap (m : Nat) (h : m + 1 < UINT32_MOD) :
    liveIdx (m + 1) = slotIndex m := by
  unfold liveIdx slotIndex
  apply Fin.ext
  simp only
  have : (m + 1 + (UINT32_MOD - 1)) % UINT32_MOD = m := by
    unfold UINT32_MOD at *
    omega
  rw [this]

/-- **C9**: ring-buffer push invariant.  Whenever the counter does not
overflow `uint32_t` (the "normal operation" proviso of the spec), a push
stores the frame into slot `(sequence - 1) mod 200` — overwriting the
previous occupant unconditionally, regardless of its contents — sets that
slot's stored sequence to the new sequence, increments the counter by
exactly 1 and changes no other slot; together with `counter = 0` at
startup this makes successive sequence numbers strictly increasing,
gap-free and starting at 1. -/
theorem ring_buffer_push_invariant (s : LiveState) (inp : PushInput)
    (h : s.counter + 1 < UINT32_MOD) :
    (pushLive s inp).counter = s.counter + 1 ∧
    liveIdx ((s.counter + 1) % UINT32_MOD) = slotIndex s.counter ∧
    (pushLive s inp).buf (slotIndex s.counter) =
      mkLiveFrame (s.buf (slotIndex s.counter)) inp (s.counter + 1) ∧
    ((pushLive s inp).buf (slotIndex s.counter)).seq = s.counter + 1 ∧
    (∀ j : Fin 200, j ≠ slotIndex s.counter → (pushLive s inp).buf j = s.buf j) ∧
    initLiveState.counter = 0 := by
  have hmod : (s.counter + 1) % UINT32_MOD = s.counter + 1 := Nat.mod_eq_of_lt h
  have hidx' : liveIdx (s.counter + 1) = slotIndex s.counter :=
    liveIdx_of_no_wrap s.counter h
  have hidx : liveIdx ((s.counter + 1) % UINT32_MOD) = slotIndex s.counter := by
    rw [hmod]; exact hidx'
  refine ⟨by simp [pushLive, hmod], hidx, ?_, ?_, ?_, rfl⟩
  · simp only [pushLive, hmod, hidx']
    rw [Function.update_same]
  · simp only [pushLive, hmod, hidx']
    rw [Function.update_same]
    rfl
  · intro j hj
    simp only [pushLive, hmod, hidx']
    exact Function.update_noteq hj _ _

/-- Witness for C9: a concrete push from the startup state. -/
theorem ring_buffer_push_invariant_witness :
    (pushLive initLiveState dInp).counter = 0 + 1 ∧
    ((pushLive initLiveState dInp).buf (slotIndex 0)).seq = 0 + 1 ∧
    (pushLive initLiveState dInp).buf ⟨5, by norm_num⟩ =
      initLiveState.buf ⟨5, by norm_num⟩ := by
  have h := ring_buffer_push_invariant initLiveState dInp (by decide)
  exact ⟨h.1, h.2.2.2.1, h.2.2.2.2.1 ⟨5, by norm_num⟩ (by decide)⟩

lemma copyPhase_length (dlc : Nat) (data old : List Nat) :
    (copyPhase dlc data old).length = old.length := by
  unfold copyPhase
  generalize List.range 8 = l
  induction l generalizing old with
  | nil => rfl
  | cons i t ih =>
    simp only [List.foldl_cons]
    rw [ih]
    by_cases h : i < dlc <;> simp [h]

lemma zeroPhase_length (dlc : Nat) (cur : List Nat) :
    (zeroPhase dlc cur).length = cur.length := by
  unfold zeroPhase
  generalize (List.range 8).drop dlc = l
  induction l generalizing cur with
  | nil => rfl
  | cons i t ih => simp [List.foldl_cons, ih]

lemma storeSlotBytes_length (dlc : Nat) (data old : List Nat) :
    (storeSlotBytes dlc data old).length = old.length := by
  unfold storeSlotBytes
  rw [zeroPhase_length, copyPhase_length]

lemma storeSlotBytes_eq_of_length (dlc : Nat) (data old : List Nat)
    (h : old.length = 8) :
    storeSlotBytes dlc data old =
      (List.range 8).map (fun i => if i < dlc then data.getD i 0 else 0) := by
  rcases old with _ | ⟨x0, _ | ⟨x1, _ | ⟨x2, _ | ⟨x3, _ | ⟨x4, _ | ⟨x5, _ |
    ⟨x6, _ | ⟨x7, _ | ⟨x8, t⟩⟩⟩⟩⟩⟩⟩⟩⟩
  all_goals simp at h
  exact storeSlotBytes_eq dlc data _ _ _ _ _ _ _ _

lemma mkLiveFrame_old_irrel (o1 o2 : LiveFrame) (inp : PushInput) (seq : Nat)
    (h1 : o1.data.length = 8) (h2 : o2.data.length = 8) :
    mkLiveFrame o1 inp seq = mkLiveFrame o2 inp seq := by
  unfold mkLiveFrame
  rw [storeSlotBytes_eq_of_length _ _ _ h1, storeSlotBytes_eq_of_length _ _ _ h2]

lemma slot_data_length_fold (hist : List PushInput) (s : LiveState)
    (hs : ∀ j, ((s.buf j).data).length = 8) :
    ∀ j, (((hist.foldl pushLive s).buf j).data).length = 8 := by
  induction hist generalizing s with
  | nil => exact hs
  | cons x t ih =>
    simp only [List.foldl_cons]
    apply ih
    intro j
    simp only [pushLive]
    by_cases hj : j = liveIdx ((s.counter + 1) % UINT32_MOD)
    · subst hj
      simp only [Function.update_same, mkLiveFrame]
      rw [storeSlotBytes_length]
      exact hs _
    · rw [Function.update_noteq hj]
      exact hs j

lemma slot_data_length (hist : List PushInput) (j : Fin 200) :
    (((stateOf hist).buf j).data).length = 8 :=
  slot_data_length_fold hist initLiveState (fun _ => rfl) j

lemma counter_fold (hist : List PushInput) (s : LiveState)
    (h : s.counter + hist.length < UINT32_MOD) :
    (hist.foldl pushLive s).counter = s.counter + hist.length := by
  induction hist generalizing s with
  | nil => simp
  | cons x t ih =>
    simp only [List.foldl_cons, List.length_cons] at h ⊢
    have h1 : (pushLive s x).counter = s.counter + 1 := by
      simp [pushLive, Nat.mod_eq_of_lt (show s.counter + 1 < UINT32_MOD by omega)]
    rw [ih (pushLive s x) (by rw [h1]; omega), h1]
    omega

lemma counter_stateOf (hist : List PushInput) (h : hist.length < UINT32_MOD) :
    (stateOf hist).counter = hist.length := by
  unfold stateOf
  rw [counter_fold hist initLiveState (by simpa [initLiveState] using h)]
  simp [initLiveState]

lemma slot_stateOf (hist : List PushInput) (h : hist.length < UINT32_MOD) :
    ∀ seq, 1 ≤ seq → seq ≤ hist.length → hist.length ≤ seq + 199 →
    (stateOf hist).buf (slotIndex (seq - 1)) =
      liveEntry (hist.getD (seq - 1) dInp) seq := by
  induction hist using List.reverseRecOn with
  | nil =>
    intro seq h1 h2 _
    simp at h2
    omega
  | append_singleton hs x ih =>
    intro seq h1 h2 h3
    have hlen : (hs ++ [x]).length = hs.length + 1 := by simp
    have hn : hs.length < UINT32_MOD := by rw [hlen] at h; omega
    have hstate : stateOf (hs ++ [x]) = pushLive (stateOf hs) x := by
      simp [stateOf, List.foldl_append]
    have hcnt : (stateOf hs).counter = hs.length := counter_stateOf hs hn
    have hmod : (hs.length + 1) % UINT32_MOD = hs.length + 1 :=
      Nat.mod_eq_of_lt (by rw [hlen] at h; omega)
    have hidx' : liveIdx (hs.length + 1) = slotIndex hs.length :=
      liveIdx_of_no_wrap hs.length (by rw [hlen] at h; omega)
    have hidx : liveIdx ((hs.length + 1) % UINT32_MOD) = slotIndex hs.length := by
      rw [hmod]; exact hidx'
    rcases Nat.lt_or_ge seq (hs.length + 1) with hlt | hge
    · -- an older sequence: its slot is untouched by the new push
      have hne : slotIndex (seq - 1) ≠ slotIndex hs.length := by
        apply Fin.ne_of_val_ne
        simp only [slotIndex]
        rw [hlen] at h3
        omega
      rw [hstate]
      simp only [pushLive, hcnt, hidx]
      rw [Function.update_noteq hne]
      have := ih hn seq h1 (by omega) (by rw [hlen] at h3; omega)
      rw [this, List.getD_append _ _ _ _ (by omega)]
    · -- the newest sequence: the slot just written
      have hseq : seq = hs.length + 1 := by rw [hlen] at h2; omega
      subst hseq
      have hs1 : hs.length + 1 - 1 = hs.length := by omega
      rw [hstate]
      simp only [pushLive, hcnt, hmod, hidx', hs1]
      rw [Function.update_same]
      have hgetD : (hs ++ [x]).getD hs.length dInp = x := by
        rw [List.getD_eq_getElem?_getD, List.getElem?_concat_length]
        rfl
      rw [hgetD]
      exact mkLiveFrame_old_irrel _ _ x (hs.length + 1)
        (slot_data_length hs _) (by rfl)

/-- A concrete pushed frame for the C5 counterexample. -/
def cexInput : PushInput :=
  { frame := { identifier := 0x123, extd := false, rtr := false,
               data_length_code := 1, data := [5, 0, 0, 0, 0, 0, 0, 0] },
    timestamp := 100, micros := 7, timeText := "t" }

/-- **C5 counterexample**: with a single pushed frame (latest sequence
`L = 1`), the query `since = 1 ≥ L` does **not** return an empty frame
list: `startSeq` is clamped *down* to `liveFrameCounter`, so the latest
frame (sequence `1 ≤ since`) is returned again. -/
theorem live_query_since_latest_cex :
    queryLive (stateOf [cexInput]) 1 50 ≠ [] ∧
    (queryLive (stateOf [cexInput]) 1 50).map LiveFrame.seq = [1] := by decide

lemma earliestSeq_le_counter (s : LiveState) (h : 1 ≤ s.counter) :
    earliestSeq s ≤ s.counter := by
  unfold earliestSeq
  split <;> omega

lemma earliestSeq_pos (s : LiveState) : 1 ≤ earliestSeq s := by
  unfold earliestSeq
  split <;> omega

lemma startSeqOf_of_since_ge (s : LiveState) (since : Nat)
    (h1 : 1 ≤ s.counter) (h2 : s.counter ≤ since) (h3 : since + 1 < UINT32_MOD) :
    startSeqOf s since = s.counter := by
  have he := earliestSeq_le_counter s h1
  simp only [startSeqOf]
  rw [if_pos (by omega : since > 0), Nat.mod_eq_of_lt h3,
    if_neg (by omega : ¬ since + 1 < earliestSeq s),
    if_pos (by omega : since + 1 > s.counter)]

/-- **C5 amended**: for every reachable buffer state with latest sequence
`L ≥ 1` and every query with `L ≤ since` (no `uint32_t` overflow of
`since + 1`, `limit ≥ 1`), the query returns exactly the single latest
frame — the frame pushed with sequence `L` — rather than an empty list;
it never errors and never returns a frame with sequence `< L`. -/
theorem live_query_since_ge_latest (hist : List PushInput) (since limit : Nat)
    (hne : hist ≠ []) (hlen : hist.length < UINT32_MOD)
    (hsince : hist.length ≤ since) (hwrap : since + 1 < UINT32_MOD)
    (hlimit : 1 ≤ limit) :
    queryLive (stateOf hist) since limit =
      [liveEntry (hist.getD (hist.length - 1) dInp) hist.length] := by
  have hn1 : 1 ≤ hist.length := List.length_pos.mpr hne
  have hcnt := counter_stateOf hist hlen
  have hstart : startSeqOf (stateOf hist) since = hist.length := by
    rw [startSeqOf_of_since_ge (stateOf hist) since (by rw [hcnt]; omega)
      (by rw [hcnt]; omega) hwrap]
    exact hcnt
  have hslot := slot_stateOf hist hlen hist.length hn1 (le_refl _) (by omega)
  simp only [queryLive, hcnt, hstart]
  rw [if_neg (by omega : ¬ hist.length = 0)]
  have hlen1 : hist.length + 1 - hist.length = 1 := by omega
  rw [hlen1]
  have hrange : List.range' hist.length 1 = [hist.length] := by
    simp [List.range']
  rw [hrange]
  simp only [List.filterMap_cons, List.filterMap_nil, hslot]
  have hseq : (liveEntry (hist.getD (hist.length - 1) dInp) hist.length).seq
      = hist.length := rfl
  rw [if_pos hseq]
  cases limit with
  | zero => omega
  | succ m => simp

/-- Witness for the amended C5: one pushed frame, `since = 5 ≥ L = 1`. -/
theorem live_query_since_ge_latest_witness :
    ([cexInput] : List PushInput) ≠ [] ∧
    queryLive (stateOf [cexInput]) 5 50 =
      [liveEntry (([cexInput] : List PushInput).getD 0 dInp) 1] :=
  ⟨by decide,
   live_query_since_ge_latest [cexInput] 5 50 (by decide) (by decide)
     (by decide) (by decide) (by decide)⟩

lemma startSeqOf_of_since_old (s : LiveState) (since : Nat)
    (h1 : 1 ≤ s.counter) (h2 : s.counter < UINT32_MOD)
    (hold : since + 1 ≤ earliestSeq s) :
    startSeqOf s since = earliestSeq s := by
  have he := earliestSeq_le_counter s h1
  have hep := earliestSeq_pos s
  simp only [startSeqOf]
  by_cases hz : since > 0
  · rw [if_pos hz, Nat.mod_eq_of_lt (by omega)]
    by_cases hlt : since + 1 < earliestSeq s
    · rw [if_pos hlt, if_neg (by omega : ¬ earliestSeq s > s.counter)]
    · have heq : since + 1 = earliestSeq s := by omega
      rw [if_neg hlt, heq, if_neg (by omega : ¬ earliestSeq s > s.counter)]
  · rw [if_neg hz, if_neg (by omega : ¬ earliestSeq s < earliestSeq s),
      if_neg (by omega : ¬ earliestSeq s > s.counter)]

/-- **C8**: live-query since-clamp.  For every reachable buffer state (of
capacity 200) and every query whose `since` refers to a sequence older than
the oldest retained one (`since + 1 ≤ earliestSeq`), the query behaves
exactly as a query starting from the oldest retained sequence; it never
errors, and every returned frame carries a retained sequence number
(`earliestSeq ≤ seq ≤ latest`, within the last 200 pushes) and is exactly
the frame pushed with that sequence — never data from a slot whose stored
sequence was overwritten by a newer push. -/
theorem live_query_since_clamp (hist : List PushInput) (since limit : Nat)
    (hne : hist ≠ []) (hlen : hist.length < UINT32_MOD)
    (hold : since + 1 ≤ earliestSeq (stateOf hist)) :
    queryLive (stateOf hist) since limit =
      queryLive (stateOf hist) (earliestSeq (stateOf hist) - 1) limit ∧
    ∀ f ∈ queryLive (stateOf hist) since limit,
      earliestSeq (stateOf hist) ≤ f.seq ∧ f.seq ≤ hist.length ∧
      hist.length ≤ f.seq + 199 ∧
      f = liveEntry (hist.getD (f.seq - 1) dInp) f.seq := by
  have hn1 : 1 ≤ hist.length := List.length_pos.mpr hne
  have hcnt := counter_stateOf hist hlen
  have hcnt1 : 1 ≤ (stateOf hist).counter := by omega
  have hcnt2 : (stateOf hist).counter < UINT32_MOD := by omega
  have hep := earliestSeq_pos (stateOf hist)
  have he := earliestSeq_le_counter (stateOf hist) hcnt1
  have hstart1 : startSeqOf (stateOf hist) since = earliestSeq (stateOf hist) :=
    startSeqOf_of_since_old _ _ hcnt1 hcnt2 hold
  have hstart2 : startSeqOf (stateOf hist) (earliestSeq (stateOf hist) - 1)
      = earliestSeq (stateOf hist) :=
    startSeqOf_of_since_old _ _ hcnt1 hcnt2 (by omega)
  have hwin : ∀ seq, earliestSeq (stateOf hist) ≤ seq →
      hist.length ≤ seq + 199 := by
    intro seq hseq
    have hthis : earliestSeq (stateOf hist) =
        if (stateOf hist).counter ≥ 200 then (stateOf hist).counter - 200 + 1
        else 1 := rfl
    by_cases hc : (stateOf hist).counter ≥ 200
    · rw [if_pos hc] at hthis
      omega
    · rw [if_neg hc] at hthis
      omega
  constructor
  · simp only [queryLive, hstart1, hstart2]
  · intro f hf
    simp only [queryLive, hstart1] at hf
    rw [if_neg (by omega : ¬ (stateOf hist).counter = 0)] at hf
    have hf2 := List.take_subset _ _ hf
    obtain ⟨seq, hseqmem, hsome⟩ := List.mem_filterMap.mp hf2
    by_cases hmatch : ((stateOf hist).buf (slotIndex (seq - 1))).seq = seq
    · rw [if_pos hmatch] at hsome
      obtain rfl := Option.some.inj hsome
      obtain ⟨hlo, hhi⟩ := List.mem_range'_1.mp hseqmem
      have hhi2 : seq ≤ hist.length := by rw [hcnt] at hhi; omega
      have hwindow := hwin seq hlo
      have hslot := slot_stateOf hist hlen seq (by omega) hhi2 hwindow
      rw [hslot]
      have hseqval : (liveEntry (hist.getD (seq - 1) dInp) seq).seq = seq := rfl
      rw [hseqval]
      exact ⟨hlo, hhi2, hwindow, rfl⟩
    · rw [if_neg hmatch] at hsome
      exact absurd hsome (by simp)

/-- Witness for C8: three pushed frames (oldest retained sequence 1),
queried with `since = 0`, older than the oldest retained sequence. -/
theorem live_query_since_clamp_witness :
    (0 : Nat) + 1 ≤ earliestSeq (stateOf [cexInput, cexInput, cexInput]) ∧
    queryLive (stateOf [cexInput, cexInput, cexInput]) 0 50 =
      queryLive (stateOf [cexInput, cexInput, cexInput])
        (earliestSeq (stateOf [cexInput, cexInput, cexInput]) - 1) 50 :=
  ⟨by decide,
   (live_query_since_clamp [cexInput, cexInput, cexInput] 0 50 (by decide)
     (by decide) (by decide)).1⟩

/-! ## Size-limit handling (`Lastry.ino` variant)

The `Lastry.ino` variant is the only one with an enforced file-size limit
(`MAX_FILE_SIZE` = 10 MB); the `CAN_Data_Logger_Encoded.ino` variant defines
`MAX_FILE_SIZE 0` as "unused (kept for compatibility)" and performs no size
check at all.  `Lastry.ino` also writes plain CSV — it has no nonce and no
cipher. -/

/-- `MAX_FILE_SIZE` of `Lastry.ino`: 10485760 bytes (10 MB). -/
def MAX_FILE_SIZE_LASTRY : Nat := 10485760

/-- The global writer state of `Lastry.ino`: file handle, SD readiness, the
user-facing logging flags, byte counter and (for the model) the on-disk
bytes of the open file plus a count of files created so far. -/
structure LastryState where
  logFileOpen : Bool
  sdCardReady : Bool
  loggingEnabled : Bool
  stoppedByUser : Bool
  currentFileSize : Nat
  fileBytes : List Nat
  filesCreated : Nat
deriving DecidableEq, Repr

/-- `closeCurrentFile()` in `Lastry.ino`: close the handle if open. -/
def lastryCloseCurrentFile (st : LastryState) : LastryState :=
  if st.logFileOpen then { st with logFileOpen := false } else st

/-- `writePlainLine(line)`: `logFile.println(line)` appends the line plus
CRLF and advances the byte counter by the written count; `ok` is the
outcome of the underlying storage write. -/
def lastryWritePlainLine (st : LastryState) (line : List Nat) (ok : Bool) :
    LastryState × Bool :=
  if !st.logFileOpen then (st, false)
  else if ok then
    ({ st with fileBytes := st.fileBytes ++ line ++ [13, 10],
               currentFileSize := st.currentFileSize + (line.length + 2) }, true)
  else (st, false)

/-- `writeCANMessage` of `Lastry.ino` (line already formatted): refuse when
no file is open or SD is not ready; when the byte counter exceeds
`MAX_FILE_SIZE`, disable logging (`loggingEnabled = false`,
`stoppedByUser = true`), close the file and return `false`; otherwise
append the line. -/
def lastryWriteCANMessage (st : LastryState) (line : List Nat) (ok : Bool) :
    LastryState × Bool :=
  if !st.logFileOpen || !st.sdCardReady then (st, false)
  else if st.currentFileSize > MAX_FILE_SIZE_LASTRY then
    (lastryCloseCurrentFile
      { st with loggingEnabled := false, stoppedByUser := true }, false)
  else lastryWritePlainLine st line ok

/-- A writer state whose byte counter has just exceeded the 10 MB limit. -/
def lastryOverLimit : LastryState :=
  { logFileOpen := true, sdCardReady := true, loggingEnabled := true,
    stoppedByUser := false, currentFileSize := MAX_FILE_SIZE_LASTRY + 1,
    fileBytes := [], filesCreated := 1 }

/-- **C4 counterexample**: when the accumulated byte count exceeds the
configured maximum, `Lastry.ino`'s writer does *not* create a new file and
does *not* continue logging: it closes the current file, sets
`loggingEnabled = false` / `stoppedByUser = true`, drops the record and
returns `false`; the number of files created stays the same, so no
logging continues into any new file. -/
theorem rollover_creates_new_file_cex :
    (lastryWriteCANMessage lastryOverLimit [65] true).2 = false ∧
    (lastryWriteCANMessage lastryOverLimit [65] true).1.logFileOpen = false ∧
    (lastryWriteCANMessage lastryOverLimit [65] true).1.loggingEnabled = false ∧
    (lastryWriteCANMessage lastryOverLimit [65] true).1.stoppedByUser = true ∧
    (lastryWriteCANMessage lastryOverLimit [65] true).1.filesCreated =
      lastryOverLimit.filesCreated ∧
    (lastryWriteCANMessage lastryOverLimit [65] true).1.fileBytes =
      lastryOverLimit.fileBytes := by decide

/-- **C4 amended**: whenever a record write is attempted while the
accumulated byte count exceeds the configured maximum (10 MB in the
`Lastry.ino` variant), the writer closes the current file, disables
logging (`loggingEnabled = false`, `stoppedByUser = true`) and drops the
record; no post-limit record is appended to the finalized file and no
new file is created automatically — logging resumes only through an
explicit user start/new-file command.  (The `CAN_Data_Logger_Encoded.ino`
variant enforces no size limit.) -/
theorem size_limit_stops_logging (st : LastryState) (line : List Nat) (ok : Bool)
    (hopen : st.logFileOpen = true) (hready : st.sdCardReady = true)
    (hsz : st.currentFileSize > MAX_FILE_SIZE_LASTRY) :
    lastryWriteCANMessage st line ok =
      ({ st with loggingEnabled := false, stoppedByUser := true,
                 logFileOpen := false }, false) ∧
    (lastryWriteCANMessage st line ok).1.fileBytes = st.fileBytes ∧
    (lastryWriteCANMessage st line ok).1.filesCreated = st.filesCreated := by
  have h1 : lastryWriteCANMessage st line ok =
      (lastryCloseCurrentFile
        { st with loggingEnabled := false, stoppedByUser := true }, false) := by
    unfold lastryWriteCANMessage
    rw [hopen, hready]
    simp [hsz]
  have h2 : lastryCloseCurrentFile
      { st with loggingEnabled := false, stoppedByUser := true } =
      { st with loggingEnabled := false, stoppedByUser := true,
                logFileOpen := false } := by
    simp [lastryCloseCurrentFile, hopen]
  rw [h1, h2]
  exact ⟨rfl, rfl, rfl⟩

/-- Witness for the amended C4 at the concrete over-limit state. -/
theorem size_limit_stops_logging_witness :
    lastryOverLimit.logFileOpen = true ∧
    lastryOverLimit.currentFileSize > MAX_FILE_SIZE_LASTRY ∧
    lastryWriteCANMessage lastryOverLimit [66] true =
      ({ lastryOverLimit with loggingEnabled := false, stoppedByUser := true,
                              logFileOpen := false }, false) :=
  ⟨rfl, by decide,
   (size_limit_stops_logging lastryOverLimit [66] true rfl rfl (by decide)).1⟩

/-! ## Log file writer and orchestration (`CAN_Data_Logger_Encoded.ino`)

The SD card is modelled functionally: each primitive storage operation
(SD probe, file open, header write, per-byte write) consumes one tick of a
fault oracle `Env.ioOk`; `Env.nonceAt` supplies the nonce generated for
each created file. -/

/-- The environment: per-operation storage outcomes and per-file nonces. -/
structure Env where
  ioOk : Nat → Bool
  nonceAt : Nat → Nat

/-- The writer-side global state of `CAN_Data_Logger_Encoded.ino`:
`sdCardReady`, the `logFile` handle (open flag, bytes, write position),
`currentCipherState`, `currentFileNonce`, `currentFileSize`,
`flushCounter`, plus (for the model) a count of created files and the
fault-oracle tick. -/
structure SysState where
  sdCardReady : Bool
  fileOpen : Bool
  fileBytes : List Nat
  filePos : Nat
  cipher : Nat
  fileNonce : Nat
  currentFileSize : Nat
  flushCounter : Nat
  filesCreated : Nat
  opTick : Nat
deriving DecidableEq, Repr

/-- `closeCurrentFile()`: flush and close the handle if open. -/
def closeCurrentFileE (st : SysState) : SysState :=
  if st.fileOpen then { st with fileOpen := false } else st

/-- One successful `logFile.write(byte)`: write at the current position
(append at end-of-file), advance the position and consume one tick. -/
def fsWrite1 (st : SysState) (b : Nat) : SysState :=
  { st with
    fileBytes := if st.filePos < st.fileBytes.length
                 then st.fileBytes.set st.filePos b
                 else st.fileBytes ++ [b],
    filePos := st.filePos + 1,
    opTick := st.opTick + 1 }

/-- The per-byte loop of `writeEncryptedLine`: encrypt each byte via
`encryptByte` (advancing the cipher state), then `logFile.write` it; on
the first failed write, close the file, set `sdCardReady = false` and
return `false`. -/
def writeEncLoop (env : Env) (st : SysState) : List Nat → SysState × Bool
  | [] => (st, true)
  | b :: bs =>
    let c := encryptByte st.cipher b
    if env.ioOk st.opTick then
      writeEncLoop env (fsWrite1 { st with cipher := c.2 } c.1) bs
    else
      ({ closeCurrentFileE { st with cipher := c.2, opTick := st.opTick + 1 }
          with sdCardReady := false }, false)

/-- `writeEncryptedLine(line)`: refuse when no file is open; encrypt and
write every character followed by the (also encrypted) `'\n'`; on success
advance `currentFileSize` by `len + 1`. -/
def writeEncryptedLine (env : Env) (st : SysState) (line : List Nat) :
    SysState × Bool :=
  if !st.fileOpen then (st, false)
  else
    let r := writeEncLoop env st (line ++ [10])
    if r.2 then
      ({ r.1 with currentFileSize := r.1.currentFileSize + (line.length + 1) },
       true)
    else r

/-- The 16-byte unencrypted `.NXT` header: `"NXTLOG"`, version 1, header
size 16, the little-endian 32-bit nonce, 4 reserved zero bytes. -/
def nxtHeader (nonce : Nat) : List Nat :=
  [0x4E, 0x58, 0x54, 0x4C, 0x4F, 0x47, 1, 16,
   nonce % 256, nonce / 256 % 256, nonce / 65536 % 256, nonce / 16777216 % 256,
   0, 0, 0, 0]

/-- The CSV header line written (encrypted) at the start of every file. -/
def csvHeaderBytes : List Nat :=
  ("Timestamp,UnixTime,Microseconds,ID,Extended,RTR,DLC,Data0,Data1,Data2,Data3,Data4,Data5,Data6,Data7,LinearAccelX,LinearAccelY,LinearAccelZ,Gravity,GPS_Lat,GPS_Lon,GPS_Alt,GPS_Speed,GPS_Course,GPS_Sats,GPS_HDOP,GPS_Time").toList.map Char.toNat

/-- `initializeSDCard()`: re-probe the SD card; one primitive operation. -/
def initializeSDCardE (env : Env) (st : SysState) : SysState × Bool :=
  ({ st with opTick := st.opTick + 1 }, env.ioOk st.opTick)

/-- `createNewLogFile()`: close any open file, open a fresh timestamp-named
file, generate a fresh nonce, write the 16-byte header, set
`currentFileSize` from the file size, reset the cipher state from the
nonce and write the encrypted CSV header line; on any failure close the
file and report `false`. -/
def createNewLogFileE (env : Env) (st : SysState) : SysState × Bool :=
  let st0 := closeCurrentFileE st
  if env.ioOk st0.opTick then
    let nonce := env.nonceAt st0.filesCreated
    let st1 : SysState :=
      { st0 with opTick := st0.opTick + 1, fileOpen := true, fileBytes := [],
                 filePos := 0, fileNonce := nonce,
                 filesCreated := st0.filesCreated + 1 }
    if env.ioOk st1.opTick then
      let st2 : SysState :=
        { st1 with opTick := st1.opTick + 1, fileBytes := nxtHeader nonce,
                   filePos := 16, currentFileSize := 16,
                   cipher := resetCipherState nonce }
      let r := writeEncryptedLine env st2 csvHeaderBytes
      if r.2 then (r.1, true) else (closeCurrentFileE r.1, false)
    else (closeCurrentFileE { st1 with opTick := st1.opTick + 1 }, false)
  else ({ st0 with opTick := st0.opTick + 1 }, false)

/-- `writeCANMessage` of `CAN_Data_Logger_Encoded.ino` (line already
formatted): recover SD and file when not ready (marking `sdCardReady`
accordingly), recreate the file when closed, then write the encrypted
line and update the flush counter (`FLUSH_INTERVAL` 20). -/
def writeCANMessageE (env : Env) (st : SysState) (line : List Nat) :
    SysState × Bool :=
  if !st.sdCardReady then
    let r1 := initializeSDCardE env st
    if !r1.2 then ({ r1.1 with sdCardReady := false }, false)
    else
      let r2 := createNewLogFileE env r1.1
      if !r2.2 then ({ r2.1 with sdCardReady := false }, false)
      else writeCANBody env { r2.1 with sdCardReady := true } line
  else if !st.fileOpen then
    let r := createNewLogFileE env st
    if !r.2 then ({ r.1 with sdCardReady := false }, false)
    else writeCANBody env r.1 line
  else writeCANBody env st line
where
  /-- The tail of `writeCANMessage`: the encrypted line write plus the
  flush-counter bookkeeping. -/
  writeCANBody (env : Env) (st : SysState) (line : List Nat) :
      SysState × Bool :=
    let w := writeEncryptedLine env st line
    if !w.2 then (w.1, false)
    else
      ({ w.1 with flushCounter :=
          if w.1.flushCounter + 1 ≥ 20 then 0 else w.1.flushCounter + 1 },
       true)

/-- The lazy file creation at the start of CAN traffic
(`if (sdCardReady && !logFile) createNewLogFile()`); a failure there only
logs and keeps going. -/
def sysAfterLazyCreate (env : Env) (sys : SysState) : SysState :=
  if sys.sdCardReady && !sys.fileOpen then (createNewLogFileE env sys).1
  else sys

/-- Result of processing one received frame in the main loop. -/
structure FrameResult where
  sys : SysState
  live : LiveState
  logged : Bool
  attempts : Nat

/-- The per-frame portion of `loop()`: lazily create a log file on traffic,
always push the frame into the live ring buffer, and — when storage is
ready — call `writeCANMessage`; on failure, create a fresh file and retry
the *same* record exactly once, marking storage not-ready if the creation
or the retry fails. -/
def processFrame (env : Env) (sys : SysState) (live : LiveState)
    (inp : PushInput) (line : List Nat) : FrameResult :=
  let sys0 := sysAfterLazyCreate env sys
  let live1 := pushLive live inp
  if sys0.sdCardReady then
    let a1 := writeCANMessageE env sys0 line
    if a1.2 then ⟨a1.1, live1, true, 1⟩
    else
      let c := createNewLogFileE env a1.1
      if !c.2 then ⟨{ c.1 with sdCardReady := false }, live1, false, 1⟩
      else
        let a2 := writeCANMessageE env c.1 line
        if a2.2 then ⟨a2.1, live1, true, 2⟩
        else ⟨{ a2.1 with sdCardReady := false }, live1, false, 2⟩
  else ⟨sys0, live1, false, 0⟩

lemma closeCurrentFileE_fileOpen (st : SysState) :
    (closeCurrentFileE st).fileOpen = false := by
  unfold closeCurrentFileE
  by_cases h : st.fileOpen
  · rw [if_pos h]
  · rw [if_neg h]
    simpa using h

lemma closeCurrentFileE_fields (st : SysState) :
    (closeCurrentFileE st).fileBytes = st.fileBytes ∧
    (closeCurrentFileE st).opTick = st.opTick ∧
    (closeCurrentFileE st).sdCardReady = st.sdCardReady ∧
    (closeCurrentFileE st).currentFileSize = st.currentFileSize ∧
    (closeCurrentFileE st).filePos = st.filePos := by
  unfold closeCurrentFileE
  by_cases h : st.fileOpen
  · rw [if_pos h]
    exact ⟨rfl, rfl, rfl, rfl, rfl⟩
  · rw [if_neg h]
    exact ⟨rfl, rfl, rfl, rfl, rfl⟩

lemma writeEncLoop_fail (env : Env) (bs : List Nat) :
    ∀ st : SysState, (writeEncLoop env st bs).2 = false →
      (writeEncLoop env st bs).1.fileOpen = false ∧
      (writeEncLoop env st bs).1.sdCardReady = false := by
  induction bs with
  | nil =>
    intro st h
    simp [writeEncLoop] at h
  | cons b t ih =>
    intro st h
    simp only [writeEncLoop] at h ⊢
    by_cases hio : env.ioOk st.opTick
    · rw [if_pos hio] at h ⊢
      exact ih _ h
    · rw [if_neg hio] at h ⊢
      exact ⟨closeCurrentFileE_fileOpen _, rfl⟩

lemma writeEncryptedLine_fail (env : Env) (st : SysState) (line : List Nat)
    (hopen : st.fileOpen = true)
    (hfail : (writeEncryptedLine env st line).2 = false) :
    (writeEncryptedLine env st line).1.fileOpen = false ∧
    (writeEncryptedLine env st line).1.sdCardReady = false := by
  unfold writeEncryptedLine at hfail ⊢
  simp only [hopen, Bool.not_true] at hfail ⊢
  by_cases hr : (writeEncLoop env st (line ++ [10])).2 = true
  · simp [hr] at hfail
  · have hr' : (writeEncLoop env st (line ++ [10])).2 = false := by
      simpa using hr
    simp only [hr', if_neg, Bool.false_eq_true, if_false] at hfail ⊢
    exact writeEncLoop_fail env (line ++ [10]) st hr'

/-- **C6**: write-failure handling.  (a) When an encrypted line write fails,
the writer closes the file and marks storage not-ready (the record is
dropped; nothing is buffered across the Closed transition for replay).
(b) The frame is pushed into the live ring buffer regardless of the write
outcome.  (c) The receive loop makes at most two `writeCANMessage`
attempts per frame — the original plus at most one immediate retry — and
at least one when storage is ready; (d) a retry happens exactly after the
first attempt failed and a fresh file was created successfully, and it
rewrites the same record (the same `line` is passed).  (e) When the frame
ends up not logged, storage is marked not-ready, while frame reception
and live-buffer pushes continue (the result's live state is the push
result in every branch). -/
theorem write_failure_handling (env : Env) (sys : SysState) (live : LiveState)
    (inp : PushInput) (line : List Nat) (_hready : sys.sdCardReady = true) :
    (∀ st : SysState, st.fileOpen = true →
        (writeEncryptedLine env st line).2 = false →
        (writeEncryptedLine env st line).1.fileOpen = false ∧
        (writeEncryptedLine env st line).1.sdCardReady = false) ∧
    (processFrame env sys live inp line).live = pushLive live inp ∧
    (processFrame env sys live inp line).attempts ≤ 2 ∧
    ((sysAfterLazyCreate env sys).sdCardReady = true →
      1 ≤ (processFrame env sys live inp line).attempts) ∧
    ((processFrame env sys live inp line).attempts = 2 →
      (writeCANMessageE env (sysAfterLazyCreate env sys) line).2 = false ∧
      (createNewLogFileE env
        (writeCANMessageE env (sysAfterLazyCreate env sys) line).1).2 = true) ∧
    ((processFrame env sys live inp line).logged = false →
      (processFrame env sys live inp line).sys.sdCardReady = false) := by
  refine ⟨fun st ho hf => writeEncryptedLine_fail env st line ho hf, ?_⟩
  unfold processFrame
  by_cases h0 : (sysAfterLazyCreate env sys).sdCardReady = true
  · rw [if_pos h0]
    by_cases h1 : (writeCANMessageE env (sysAfterLazyCreate env sys) line).2 = true
    · rw [if_pos h1]
      exact ⟨rfl, by simp, fun _ => by simp, by intro h; simp at h,
        by intro h; simp at h⟩
    · rw [if_neg h1]
      by_cases h2 : (createNewLogFileE env
          (writeCANMessageE env (sysAfterLazyCreate env sys) line).1).2 = true
      · rw [if_neg (by simpa using h2)]
        by_cases h3 : (writeCANMessageE env
            (createNewLogFileE env
              (writeCANMessageE env (sysAfterLazyCreate env sys) line).1).1
            line).2 = true
        · rw [if_pos h3]
          exact ⟨rfl, by simp, fun _ => by simp,
            fun _ => ⟨by simpa using h1, h2⟩, by intro h; simp at h⟩
        · rw [if_neg h3]
          exact ⟨rfl, by simp, fun _ => by simp,
            fun _ => ⟨by simpa using h1, h2⟩, fun _ => rfl⟩
      · rw [if_pos (by simpa using h2)]
        exact ⟨rfl, by simp, fun _ => by simp, by intro h; simp at h,
          fun _ => rfl⟩
  · rw [if_neg h0]
    refine ⟨rfl, by simp, fun hc => absurd hc h0, by intro h; simp at h,
      fun _ => ?_⟩
    simpa using h0

/-- The all-operations-fail environment (storage removed). -/
def envAllFail : Env := { ioOk := fun _ => false, nonceAt := fun _ => 7 }

/-- The all-operations-succeed environment. -/
def envAllOk : Env := { ioOk := fun _ => true, nonceAt := fun _ => 7 }

/-- A ready writer state with one open file containing just its header. -/
def sysOpenReady : SysState :=
  { sdCardReady := true, fileOpen := true, fileBytes := nxtHeader 7,
    filePos := 16, cipher := resetCipherState 7, fileNonce := 7,
    currentFileSize := 16, flushCounter := 0, filesCreated := 1, opTick := 0 }

/-- Witness for C6: a frame processed while every storage operation fails. -/
theorem write_failure_handling_witness :
    sysOpenReady.sdCardReady = true ∧
    (processFrame envAllFail sysOpenReady initLiveState cexInput [65]).live =
      pushLive initLiveState cexInput ∧
    (processFrame envAllFail sysOpenReady initLiveState cexInput [65]).attempts ≤ 2 ∧
    ((processFrame envAllFail sysOpenReady initLiveState cexInput [65]).logged = false →
      (processFrame envAllFail sysOpenReady initLiveState cexInput
        [65]).sys.sdCardReady = false) :=
  ⟨rfl,
   (write_failure_handling envAllFail sysOpenReady initLiveState cexInput [65] rfl).2.1,
   (write_failure_handling envAllFail sysOpenReady initLiveState cexInput [65] rfl).2.2.1,
   (write_failure_handling envAllFail sysOpenReady initLiveState cexInput [65] rfl).2.2.2.2.2⟩

/-- The close-for-read / reopen-for-append sequence of `handleFileDownload`
for the currently open log file: flush, close, let the external read
complete, then reopen the same filename, `seek` to the file size and set
`currentFileSize = logFile.size()`.  Modelled from the spec: the reopen
uses the storage collaborator's append-preserving open ("reopen the same
filename in append mode"), whose implementation (the SD library) is not
part of this repository — the on-disk bytes survive the reopen.  A failed
reopen marks storage not-ready. -/
def downloadReopen (env : Env) (st : SysState) : SysState :=
  let st1 := closeCurrentFileE st
  if env.ioOk st1.opTick then
    { st1 with opTick := st1.opTick + 1, fileOpen := true,
               filePos := st1.fileBytes.length,
               currentFileSize := st1.fileBytes.length }
  else { st1 with opTick := st1.opTick + 1, sdCardReady := false }

lemma writeEncLoop_append (env : Env) (bs : List Nat) :
    ∀ st : SysState, st.filePos = st.fileBytes.length →
      (writeEncLoop env st bs).2 = true →
      ∃ suffix : List Nat,
        (writeEncLoop env st bs).1.fileBytes = st.fileBytes ++ suffix ∧
        suffix.length = bs.length ∧
        (writeEncLoop env st bs).1.filePos =
          (writeEncLoop env st bs).1.fileBytes.length ∧
        (writeEncLoop env st bs).1.currentFileSize = st.currentFileSize := by
  induction bs with
  | nil =>
    intro st hpos _
    exact ⟨[], by simp [writeEncLoop], rfl, by simpa [writeEncLoop] using hpos, rfl⟩
  | cons b t ih =>
    intro st hpos hsucc
    simp only [writeEncLoop] at hsucc ⊢
    by_cases hio : env.ioOk st.opTick
    · rw [if_pos hio] at hsucc ⊢
      have hnolt : ¬ st.filePos < st.fileBytes.length := by omega
      have hbytes : (fsWrite1 { st with cipher := (encryptByte st.cipher b).2 }
          (encryptByte st.cipher b).1).fileBytes =
          st.fileBytes ++ [(encryptByte st.cipher b).1] := by
        simp [fsWrite1, hnolt]
      have hpos' : (fsWrite1 { st with cipher := (encryptByte st.cipher b).2 }
          (encryptByte st.cipher b).1).filePos =
          (fsWrite1 { st with cipher := (encryptByte st.cipher b).2 }
            (encryptByte st.cipher b).1).fileBytes.length := by
        rw [hbytes]
        simp [fsWrite1, hpos]
      obtain ⟨suf, hs1, hs2, hs3, hs4⟩ := ih _ hpos' hsucc
      refine ⟨(encryptByte st.cipher b).1 :: suf, ?_, by simp [hs2], hs3, ?_⟩
      · rw [hs1, hbytes]
        simp
      · rw [hs4]
        rfl
    · rw [if_neg hio] at hsucc
      exact absurd hsucc (by simp)

/-- **C7**: reopen-after-read consistency.  After the close-for-read /
reopen-for-append sequence used when an external download needs the
currently open log file, the on-disk bytes are unchanged, the writer's
byte counter equals the file's actual on-disk size, the write position is
at end-of-file, and the next successful record write appends exactly the
record's `len + 1` encrypted bytes starting at the prior on-disk
end-of-file — no truncation and no duplication of previously written
bytes. -/
theorem reopen_after_read_consistency (env : Env) (st : SysState)
    (line : List Nat) (_hopen : st.fileOpen = true)
    (hok : env.ioOk st.opTick = true) :
    (downloadReopen env st).fileBytes = st.fileBytes ∧
    (downloadReopen env st).currentFileSize = st.fileBytes.length ∧
    (downloadReopen env st).filePos = st.fileBytes.length ∧
    (downloadReopen env st).fileOpen = true ∧
    ((writeEncryptedLine env (downloadReopen env st) line).2 = true →
      ∃ suffix : List Nat,
        (writeEncryptedLine env (downloadReopen env st) line).1.fileBytes =
          st.fileBytes ++ suffix ∧
        suffix.length = line.length + 1 ∧
        (writeEncryptedLine env (downloadReopen env st) line).1.currentFileSize =
          st.fileBytes.length + (line.length + 1)) := by
  obtain ⟨hb, ht, hr, hc, hp⟩ := closeCurrentFileE_fields st
  have hok' : env.ioOk (closeCurrentFileE st).opTick = true := by rw [ht]; exact hok
  have hreopen : downloadReopen env st =
      { closeCurrentFileE st with
        opTick := (closeCurrentFileE st).opTick + 1, fileOpen := true,
        filePos := (closeCurrentFileE st).fileBytes.length,
        currentFileSize := (closeCurrentFileE st).fileBytes.length } := by
    unfold downloadReopen
    rw [if_pos hok']
  refine ⟨by rw [hreopen]; exact hb, by rw [hreopen, hb],
    by rw [hreopen, hb], by rw [hreopen], ?_⟩
  intro hsucc
  have hopen' : (downloadReopen env st).fileOpen = true := by rw [hreopen]
  have hpos' : (downloadReopen env st).filePos =
      (downloadReopen env st).fileBytes.length := by
    rw [hreopen]
  unfold writeEncryptedLine at hsucc ⊢
  simp only [hopen', Bool.not_true, Bool.false_eq_true, if_false] at hsucc ⊢
  by_cases hloop : (writeEncLoop env (downloadReopen env st) (line ++ [10])).2 = true
  · obtain ⟨suf, hs1, hs2, _, hs4⟩ :=
      writeEncLoop_append env (line ++ [10]) (downloadReopen env st) hpos' hloop
    have hbytes0 : (downloadReopen env st).fileBytes = st.fileBytes := by
      rw [hreopen]; exact hb
    have hsize0 : (downloadReopen env st).currentFileSize = st.fileBytes.length := by
      rw [hreopen, hb]
    refine ⟨suf, ?_, ?_, ?_⟩
    · simp only [hloop, if_true]
      rw [hs1, hbytes0]
    · rw [hs2]
      simp
    · simp only [hloop, if_true]
      rw [hs4, hsize0]
  · simp [hloop] at hsucc

/-- Witness for C7: reopening a header-only file under a healthy card. -/
theorem reopen_after_read_consistency_witness :
    sysOpenReady.fileOpen = true ∧
    (downloadReopen envAllOk sysOpenReady).fileBytes = sysOpenReady.fileBytes ∧
    (downloadReopen envAllOk sysOpenReady).currentFileSize =
      sysOpenReady.fileBytes.length ∧
    (downloadReopen envAllOk sysOpenReady).filePos =
      sysOpenReady.fileBytes.length :=
  ⟨rfl,
   (reopen_after_read_consistency envAllOk sysOpenReady [65] rfl rfl).1,
   (reopen_after_read_consistency envAllOk sysOpenReady [65] rfl rfl).2.1,
   (reopen_after_read_consistency envAllOk sysOpenReady [65] rfl rfl).2.2.1⟩

end CanLogger
